import Mathlib

/-!
Shallow embedding of `src/server.py` (HopStackMCP meta-tools server).

Python strings are modelled as Lean `String`; every string operation the
server uses (`.lower()`, `.startswith()`, `in`, slicing, `split`) is given
its own structurally recursive definition over the character list, mirroring
the CPython semantics the code relies on (ASCII case folding, as in the
tool-name data).  JSON values are modelled by the inductive `Json`; the
`json.loads` library call is an oracle parameter, and the outbound HTTP
backend (`httpx` POST) is an oracle returning a `BackendResp`.
-/

namespace HopStack

/-- Python `str.lower()` restricted to ASCII case folding (the tool-name
alphabet used by the server data). -/
def pyLower (s : String) : String := ⟨s.data.map Char.toLower⟩

/-- List-level prefix test, used to model Python `str.startswith`. -/
def isPrefixList : List Char → List Char → Bool
  | [], _ => true
  | _ :: _, [] => false
  | c :: cs, d :: ds => c = d && isPrefixList cs ds

/-- Python `s.startswith(p)`. -/
def pyStartsWith (s p : String) : Bool := isPrefixList p.data s.data

/-- Substring occurrence over character lists. -/
def listSubstr : List Char → List Char → Bool
  | needle, [] => needle.isEmpty
  | needle, c :: t => isPrefixList needle (c :: t) || listSubstr needle t

/-- Python `needle in hay` for strings. -/
def pyIn (needle hay : String) : Bool := listSubstr needle.data hay.data

/-- Normalisation of one Python slice index against a list of length `n`:
negative indices count from the end and clamp at 0, non-negative indices
clamp at `n`. -/
def pyIdx (n : Nat) (i : Int) : Nat :=
  if i < 0 then ((n : Int) + i).toNat else min i.toNat n

/-- Python slice `xs[start:stop]`. -/
def pySlice {α : Type} (xs : List α) (start stop : Int) : List α :=
  (xs.take (pyIdx xs.length stop)).drop (pyIdx xs.length start)

/-- Python `s.split(sep)` for a one-character separator, at character-list
level.  Always returns a non-empty list of pieces. -/
def pySplitChar (sep : Char) : List Char → List (List Char)
  | [] => [[]]
  | c :: cs =>
    if c = sep then [] :: pySplitChar sep cs
    else
      match pySplitChar sep cs with
      | [] => [[c]]
      | p :: ps => (c :: p) :: ps

/-- JSON values (numbers restricted to integers, which is all the server's
envelopes use). -/
inductive Json : Type where
  | null : Json
  | bool : Bool → Json
  | num : Int → Json
  | str : String → Json
  | arr : List Json → Json
  | obj : List (String × Json) → Json

/-- First value stored under key `k` in a JSON object's field list
(Python dict lookup; parsed dicts have unique keys). -/
def lookupFirst (fields : List (String × Json)) (k : String) : Option Json :=
  match fields with
  | [] => none
  | (k', v) :: rest => if k' = k then some v else lookupFirst rest k

/-- Tool definition entry as the server uses it: `load_tools` guarantees a
`name`; `description` and `inputSchema` are read with `.get` defaults. -/
structure ToolDef : Type where
  name : String
  description : Option String
  inputSchema : Option Json

/-- Raw JSON entry before the `"name" in entry` guard of `load_tools`. -/
structure RawEntry : Type where
  name : Option String
  description : Option String
  inputSchema : Option Json

/-- Embedding of `load_tools` (src/server.py:49): each configured file is
either missing (`none`, skipped with a warning) or a list of entries;
entries lacking a name are skipped; order is file order then entry order. -/
def load_tools (files : List (Option (List RawEntry))) : List ToolDef :=
  ((files.filterMap id).flatten).filterMap
    (fun e => e.name.map (fun n => ⟨n, e.description, e.inputSchema⟩))

/-- Insertion into the model of a Python `dict` kept as an association list:
an existing key keeps its position and gets the new value, a new key is
appended (CPython dict-order semantics, matching `{t["name"]: t for t in
tools}`). -/
def dictInsert (m : List (String × ToolDef)) (k : String) (v : ToolDef) :
    List (String × ToolDef) :=
  if m.any (fun p => p.1 = k) then
    m.map (fun p => if p.1 = k then (k, v) else p)
  else m ++ [(k, v)]

/-- Python `dict` key lookup on the association-list model. -/
def dictGet (m : List (String × ToolDef)) (k : String) : Option ToolDef :=
  match m with
  | [] => none
  | (k', v) :: rest => if k' = k then some v else dictGet rest k

/-- First dict item whose key lowercases to `low` (the
`for name, t in tools_by_name.items()` fallback scans). -/
def dictFindLower (m : List (String × ToolDef)) (low : String) :
    Option (String × ToolDef) :=
  match m with
  | [] => none
  | (k, v) :: rest => if pyLower k = low then some (k, v) else dictFindLower rest low

/-- Embedding of `get_tools_by_name` (src/server.py:72): the dict
comprehension over the loaded catalog, last value wins on duplicate names. -/
def get_tools_by_name (tools : List ToolDef) : List (String × ToolDef) :=
  tools.foldl (fun m t => dictInsert m t.name t) []

/-- Category of one tool name (src/server.py:91-98): piece before the first
`.`, else before the first `_`, else the literal `general`. -/
def deriveCategory (name : String) : String :=
  if name.data.contains '.' then ⟨(pySplitChar '.' name.data).headD []⟩
  else if name.data.contains '_' then ⟨(pySplitChar '_' name.data).headD []⟩
  else "general"

/-- Python `set` built by insertion order (order irrelevant once sorted). -/
def pySetOfList (l : List String) : List String :=
  l.foldl (fun acc c => if c ∈ acc then acc else acc ++ [c]) []

/-- Embedding of `get_tool_categories` (src/server.py:83): the set of derived
categories of all loaded tools, sorted ascending. -/
def get_tool_categories (tools : List ToolDef) : List String :=
  List.insertionSort (fun a b => a ≤ b)
    (pySetOfList (tools.map (fun t => deriveCategory t.name)))

/-- Category predicate of `list_available_tools` (src/server.py:154-160):
lowercase name starts with `category + "."`, starts with `category + "_"`,
or equals `category` exactly. -/
def categoryMatch (category name : String) : Bool :=
  pyStartsWith (pyLower name) (pyLower category ++ ".")
  || pyStartsWith (pyLower name) (pyLower category ++ "_")
  || pyLower name = pyLower category

/-- Search predicate of `list_available_tools` (src/server.py:165-170). -/
def searchMatch (search : String) (t : ToolDef) : Bool :=
  pyIn (pyLower search) (pyLower t.name)
  || pyIn (pyLower search) (pyLower (t.description.getD ""))

/-- Filtering stage of `list_available_tools`: the `if category:` and
`if search:` guards are Python truthiness tests, so `none` and the empty
string both skip a filter. -/
def listFiltered (tools : List ToolDef) (category search : Option String) :
    List ToolDef :=
  let f1 :=
    match category with
    | some c => if c = "" then tools else tools.filter (fun t => categoryMatch c t.name)
    | none => tools
  match search with
  | some s => if s = "" then f1 else f1.filter (fun t => searchMatch s t)
  | none => f1

/-- Description truncation of the compact listing (src/server.py:183-184). -/
def truncateDesc (d : String) : String :=
  if d.data.length > 100 then (⟨d.data.take 97⟩ : String) ++ "..." else d

/-- Result record of `list_available_tools`. -/
structure ListResult : Type where
  tools : List (String × String)
  total : Nat
  returned : Nat
  has_more : Bool
  categories : Option (List String)

/-- Embedding of `list_available_tools` (src/server.py:123-203). -/
def list_available_tools (tools : List ToolDef) (category search : Option String)
    (limit offset : Int) : ListResult :=
  let filtered := listFiltered tools category search
  let total := filtered.length
  let lim := min limit 200
  let paginated := pySlice filtered offset (offset + lim)
  let result_tools :=
    paginated.map (fun t => (t.name, truncateDesc (t.description.getD "")))
  { tools := result_tools
    total := total
    returned := result_tools.length
    has_more := decide ((offset + lim) < (total : Int))
    categories :=
      if (category.getD "") = "" ∧ (search.getD "") = "" ∧ offset = 0 then
        some (get_tool_categories tools)
      else none }

/-- Result record of `get_tool_schema`. -/
structure SchemaResult : Type where
  found : Bool
  name : Option String
  description : Option String
  inputSchema : Option Json
  error : Option String
  suggestion : Option String

/-- Embedding of `get_tool_schema` (src/server.py:210-251): exact dict
lookup, then the case-insensitive scan over dict items. -/
def get_tool_schema (catalog : List ToolDef) (tool_name : String) : SchemaResult :=
  let m := get_tools_by_name catalog
  let tool :=
    match dictGet m tool_name with
    | some t => some t
    | none => (dictFindLower m (pyLower tool_name)).map Prod.snd
  match tool with
  | none =>
    { found := false
      name := none
      description := none
      inputSchema := none
      error := some ("Tool '" ++ tool_name ++ "' not found")
      suggestion := some "Use list_available_tools to find available tools" }
  | some t =>
    { found := true
      name := some t.name
      description := some (t.description.getD "")
      inputSchema := some (t.inputSchema.getD (Json.obj []))
      error := none
      suggestion := none }

/-- Outcome of one `httpx` POST to the backend: a response with status,
parsed JSON-object body and raw text, or one of the caught transport
exceptions. -/
inductive BackendResp : Type where
  | ok : Nat → List (String × Json) → String → BackendResp
  | connectError : BackendResp
  | timeout : BackendResp
  | exn : String → BackendResp

/-- Result of `execute_ue_tool` together with the JSON-RPC request sent to
the backend (`none` when the code returns before any outbound call). -/
structure ExecOutcome : Type where
  result : Json
  request : Option Json

/-- JSON-RPC envelope built at src/server.py:304-312. -/
def mcpRequest (name : String) (args : Json) : Json :=
  Json.obj
    [("jsonrpc", Json.str "2.0"), ("id", Json.num 1),
     ("method", Json.str "tools/call"),
     ("params", Json.obj [("name", Json.str name), ("arguments", args)])]

/-- Name resolution of `execute_ue_tool` (src/server.py:276-283): exact dict
membership first, else the first dict key with equal lowercase form; the
canonical dict key is the name used from then on. -/
def resolveName (m : List (String × ToolDef)) (n : String) : Option String :=
  match dictGet m n with
  | some _ => some n
  | none => (dictFindLower m (pyLower n)).map Prod.fst

/-- Argument handling of `execute_ue_tool` (src/server.py:292-301): absent or
empty string means the empty object, otherwise `json.loads`; a parse error
carries the message and the raw string. -/
def parseArgs (parse : String → Except String Json) :
    Option String → Except (String × String) Json
  | none => Except.ok (Json.obj [])
  | some s =>
    if s = "" then Except.ok (Json.obj [])
    else
      match parse s with
      | Except.ok j => Except.ok j
      | Except.error e => Except.error (e, s)

/-- Backend-reply translation of `execute_ue_tool` (src/server.py:323-373).
A non-dict value under `"error"` makes the Python code raise inside the
generic `except Exception` handler; the exact interpreter message is
abstracted to its class name. -/
def handleResp (rname : String) : BackendResp → Json
  | BackendResp.ok status body text =>
    if status = 200 then
      match lookupFirst body "error" with
      | some (Json.obj ef) =>
        Json.obj
          [("success", Json.bool false),
           ("error", (lookupFirst ef "message").getD (Json.str "Unknown error")),
           ("code", (lookupFirst ef "code").getD Json.null)]
      | some _ =>
        Json.obj
          [("success", Json.bool false),
           ("error", Json.str "Unexpected error: AttributeError"),
           ("tool", Json.str rname)]
      | none =>
        match lookupFirst body "result" with
        | some rv =>
          Json.obj
            [("success", Json.bool true), ("tool", Json.str rname), ("result", rv)]
        | none =>
          Json.obj
            [("success", Json.bool true), ("tool", Json.str rname),
             ("result", Json.obj body)]
    else
      Json.obj
        [("success", Json.bool false),
         ("error", Json.str ("UE Plugin returned HTTP " ++ toString status)),
         ("details", if text = "" then Json.null else Json.str ⟨text.data.take 500⟩),
         ("hint", Json.str "Ensure Unreal Editor is running with Agent Integration Kit")]
  | BackendResp.connectError =>
    Json.obj
      [("success", Json.bool false),
       ("error", Json.str "Cannot connect to Unreal Engine MCP server"),
       ("url", Json.str "http://localhost:9315/mcp"),
       ("hint", Json.str "Ensure Unreal Editor is running with Agent Integration Kit plugin loaded")]
  | BackendResp.timeout =>
    Json.obj
      [("success", Json.bool false),
       ("error", Json.str "Request to Unreal Engine timed out (60s)"),
       ("tool", Json.str rname),
       ("hint", Json.str "The tool may still be executing. Check Unreal Editor.")]
  | BackendResp.exn e =>
    Json.obj
      [("success", Json.bool false),
       ("error", Json.str ("Unexpected error: " ++ e)),
       ("tool", Json.str rname)]

/-- Embedding of `execute_ue_tool` (src/server.py:258-373); `parse` is the
`json.loads` oracle, `backend` the `httpx` POST oracle. -/
def execute_ue_tool (catalog : List ToolDef) (parse : String → Except String Json)
    (backend : Json → BackendResp) (tool_name : String) (arguments : Option String) :
    ExecOutcome :=
  let m := get_tools_by_name catalog
  match resolveName m tool_name with
  | none =>
    { result :=
        Json.obj
          [("success", Json.bool false),
           ("error", Json.str ("Tool '" ++ tool_name ++ "' not found")),
           ("suggestion", Json.str "Use list_available_tools to find available tools")]
      request := none }
  | some rname =>
    match parseArgs parse arguments with
    | Except.error (e, s) =>
      { result :=
          Json.obj
            [("success", Json.bool false),
             ("error", Json.str ("Invalid JSON in arguments: " ++ e)),
             ("arguments_received", Json.str s)]
        request := none }
    | Except.ok argsDict =>
      let req := mcpRequest rname argsDict
      { result := handleResp rname (backend req), request := some req }

/-- Category predicate of the `/tools.json` endpoint (src/server.py:407-412):
only the two prefix forms, no exact-equality disjunct. -/
def endpointCategoryMatch (category name : String) : Bool :=
  pyStartsWith (pyLower name) (pyLower category ++ ".")
  || pyStartsWith (pyLower name) (pyLower category ++ "_")

/-- Category-filter stage of the `/tools.json` endpoint; `some ""` is falsy
in Python and skips the filter. -/
def endpointFiltered (tools : List ToolDef) (category : Option String) :
    List ToolDef :=
  match category with
  | some c => if c = "" then tools else tools.filter (fun t => endpointCategoryMatch c t.name)
  | none => tools

/-- Response shapes of the `/tools.json` endpoint. -/
inductive ToolsJsonResp : Type where
  | namesOnly : List String → ToolsJsonResp
  | compact : List (String × String) → ToolsJsonResp
  | full : List ToolDef → ToolsJsonResp

/-- Embedding of `tools_json_endpoint` (src/server.py:384-433).  `limit` is
`none` when the query parameter is absent or empty (both falsy); a present
limit slices `[offset : offset+limit]`, otherwise a positive offset drops a
prefix and a non-positive one leaves the list whole. -/
def tools_json_endpoint (tools : List ToolDef) (compact names_only : Bool)
    (category : Option String) (limit : Option Int) (offset : Int) : ToolsJsonResp :=
  let tools := endpointFiltered tools category
  let tools :=
    match limit with
    | some l => pySlice tools offset (offset + l)
    | none => if offset > 0 then tools.drop offset.toNat else tools
  if names_only then ToolsJsonResp.namesOnly (tools.map (fun t => t.name))
  else if compact then
    ToolsJsonResp.compact
      (tools.map (fun t => (t.name, (⟨(t.description.getD "").data.take 100⟩ : String))))
  else ToolsJsonResp.full tools

/-- Category of a name as the spec words it: the substring before the first
`.`, else before the first `_`, else `general`; the maximal separator-free
prefix is exactly the substring before the first separator. -/
def specDeriveCategory (name : String) : String :=
  if name.data.contains '.' then ⟨name.data.takeWhile (fun c => c ≠ '.')⟩
  else if name.data.contains '_' then ⟨name.data.takeWhile (fun c => c ≠ '_')⟩
  else "general"

/-- Two-tool example catalog used by the concrete checks (the catalog of the
spec's scenario section). -/
def exCat : List ToolDef :=
  [⟨"blueprintgraph.spawn_function_node", some "Spawns a node.", none⟩,
   ⟨"material.set_param", some "Sets a parameter.", none⟩]

/-- A `json.loads` oracle that rejects every input, with a CPython-style
message. -/
def parseFail : String → Except String Json :=
  fun _ => Except.error "Expecting value: line 1 column 2 (char 1)"

/-- A backend double whose every call fails to connect. -/
def noBackend : Json → BackendResp := fun _ => BackendResp.connectError

/-- A backend double replying HTTP 200 with a JSON-RPC error object and a
`result` field at once (to exercise the precedence of the error branch). -/
def errorBackend : Json → BackendResp :=
  fun _ =>
    BackendResp.ok 200
      [("error", Json.obj [("message", Json.str "bad state"), ("code", Json.num (-32000))]),
       ("result", Json.str "ignored")] ""

/-- Two files both defining a tool named `x.a`, plus one nameless entry. -/
def dupFiles : List (Option (List RawEntry)) :=
  [some [⟨some "x.a", some "first", none⟩, ⟨none, some "comment", none⟩],
   some [⟨some "x.a", some "second", some (Json.obj [("type", Json.str "object")])⟩]]

/-!  Helper lemmas about the association-list model of the name dict. -/

theorem mem_dictInsert {m : List (String × ToolDef)} {k : String} {v : ToolDef}
    {p : String × ToolDef} (h : p ∈ dictInsert m k v) : p ∈ m ∨ p = (k, v) := by
  unfold dictInsert at h
  split at h
  · rcases List.mem_map.mp h with ⟨q, hq, hfq⟩
    by_cases hqk : q.1 = k
    · right
      rw [if_pos hqk] at hfq
      exact hfq.symm
    · left
      rw [if_neg hqk] at hfq
      exact hfq ▸ hq
  · rcases List.mem_append.mp h with h1 | h1
    · exact Or.inl h1
    · right
      simpa using h1

theorem key_mem_dictInsert {m : List (String × ToolDef)} {k0 k : String} {v : ToolDef}
    (h : ∃ w, (k0, w) ∈ m) : ∃ w, (k0, w) ∈ dictInsert m k v := by
  rcases h with ⟨w, hw⟩
  unfold dictInsert
  split
  · by_cases hk : k0 = k
    · subst hk
      exact ⟨v, List.mem_map.mpr ⟨(k0, w), hw, by simp⟩⟩
    · exact ⟨w, List.mem_map.mpr ⟨(k0, w), hw, by simp [hk]⟩⟩
  · exact ⟨w, List.mem_append.mpr (Or.inl hw)⟩

theorem key_self_dictInsert (m : List (String × ToolDef)) (k : String) (v : ToolDef) :
    ∃ w, (k, w) ∈ dictInsert m k v := by
  unfold dictInsert
  split
  · next hany =>
      rcases List.any_eq_true.mp hany with ⟨q, hq, hqk⟩
      have hqk' : q.1 = k := by simpa using hqk
      exact ⟨v, List.mem_map.mpr ⟨q, hq, by simp [hqk']⟩⟩
  · exact ⟨v, List.mem_append.mpr (Or.inr (by simp))⟩

theorem dictGet_mem {m : List (String × ToolDef)} {k : String} {v : ToolDef}
    (h : dictGet m k = some v) : (k, v) ∈ m := by
  induction m with
  | nil => simp [dictGet] at h
  | cons p rest ih =>
    obtain ⟨k', v'⟩ := p
    simp only [dictGet] at h
    split at h
    · next heq =>
        injection h with h
        subst heq
        subst h
        exact List.mem_cons_self _ _
    · exact List.mem_cons_of_mem _ (ih h)

theorem dictGet_isSome_of_key {m : List (String × ToolDef)} {k : String} {w : ToolDef}
    (h : (k, w) ∈ m) : (dictGet m k).isSome := by
  induction m with
  | nil => simp at h
  | cons p rest ih =>
    obtain ⟨k', v'⟩ := p
    simp only [dictGet]
    split
    · simp
    · next hne =>
        rcases List.mem_cons.mp h with h1 | h1
        · injection h1 with ha hb
          exact absurd ha.symm hne
        · exact ih h1

theorem dictFindLower_mem {m : List (String × ToolDef)} {low : String}
    {p : String × ToolDef} (h : dictFindLower m low = some p) :
    p ∈ m ∧ pyLower p.1 = low := by
  induction m with
  | nil => simp [dictFindLower] at h
  | cons q rest ih =>
    obtain ⟨k, v⟩ := q
    simp only [dictFindLower] at h
    split at h
    · next heq =>
        injection h with h
        subst h
        exact ⟨List.mem_cons_self _ _, heq⟩
    · rcases ih h with ⟨h1, h2⟩
      exact ⟨List.mem_cons_of_mem _ h1, h2⟩

theorem dictFindLower_isSome {m : List (String × ToolDef)} {low : String}
    {q : String × ToolDef} (hq : q ∈ m) (hlow : pyLower q.1 = low) :
    (dictFindLower m low).isSome := by
  induction m with
  | nil => simp at hq
  | cons r rest ih =>
    obtain ⟨k, v⟩ := r
    simp only [dictFindLower]
    split
    · simp
    · next hne =>
        rcases List.mem_cons.mp hq with h1 | h1
        · subst h1
          exact absurd hlow hne
        · exact ih h1

theorem mem_get_tools_by_name_aux (cat : List ToolDef) :
    ∀ (m : List (String × ToolDef)) (p : String × ToolDef),
      p ∈ cat.foldl (fun m t => dictInsert m t.name t) m →
      p ∈ m ∨ (p.2 ∈ cat ∧ p.2.name = p.1) := by
  induction cat with
  | nil => intro m p h; exact Or.inl h
  | cons t rest ih =>
    intro m p h
    rw [List.foldl_cons] at h
    rcases ih (dictInsert m t.name t) p h with h1 | h1
    · rcases mem_dictInsert h1 with h2 | h2
      · exact Or.inl h2
      · right
        rw [h2]
        exact ⟨List.mem_cons_self _ _, rfl⟩
    · exact Or.inr ⟨List.mem_cons_of_mem _ h1.1, h1.2⟩

theorem mem_get_tools_by_name {cat : List ToolDef} {p : String × ToolDef}
    (h : p ∈ get_tools_by_name cat) : p.2 ∈ cat ∧ p.2.name = p.1 := by
  rcases mem_get_tools_by_name_aux cat [] p h with h1 | h1
  · simp at h1
  · exact h1

theorem key_get_tools_by_name_aux (cat : List ToolDef) :
    ∀ (m : List (String × ToolDef)) (k : String),
      ((∃ t ∈ cat, t.name = k) ∨ ∃ w, (k, w) ∈ m) →
      ∃ w, (k, w) ∈ cat.foldl (fun m t => dictInsert m t.name t) m := by
  induction cat with
  | nil =>
    intro m k h
    rcases h with ⟨t, ht, _⟩ | h
    · simp at ht
    · exact h
  | cons t rest ih =>
    intro m k h
    rw [List.foldl_cons]
    apply ih
    rcases h with ⟨t', ht', hname⟩ | h
    · rcases List.mem_cons.mp ht' with h1 | h1
      · right
        subst h1
        subst hname
        exact key_self_dictInsert m t'.name t'
      · exact Or.inl ⟨t', h1, hname⟩
    · exact Or.inr (key_mem_dictInsert h)

theorem key_get_tools_by_name {cat : List ToolDef} {t : ToolDef} (h : t ∈ cat) :
    ∃ w, (t.name, w) ∈ get_tools_by_name cat :=
  key_get_tools_by_name_aux cat [] t.name (Or.inl ⟨t, h, rfl⟩)

theorem dictGet_append (m m' : List (String × ToolDef)) (k : String) :
    dictGet (m ++ m') k = (dictGet m k).or (dictGet m' k) := by
  induction m with
  | nil => simp [dictGet]
  | cons p rest ih =>
    obtain ⟨k', v'⟩ := p
    rw [List.cons_append]
    simp only [dictGet]
    split
    · rfl
    · exact ih

theorem dictGet_map_replace (k : String) (v : ToolDef) (k0 : String) :
    ∀ m : List (String × ToolDef),
      dictGet (m.map (fun p => if p.1 = k then (k, v) else p)) k0 =
        if k = k0 then (if m.any (fun p => p.1 = k) then some v else none)
        else dictGet m k0 := by
  intro m
  induction m with
  | nil =>
    by_cases h : k = k0 <;> simp [dictGet, h]
  | cons p rest ih =>
    obtain ⟨a, b⟩ := p
    have hhead : (if (a, b).1 = k then ((k, v) : String × ToolDef) else (a, b))
        = if a = k then (k, v) else (a, b) := rfl
    have hany : (((a, b) :: rest).any (fun p => p.1 = k))
        = (decide (a = k) || rest.any (fun p => p.1 = k)) := rfl
    have hget : ∀ (c : String) (w : ToolDef) (L : List (String × ToolDef)),
        dictGet ((c, w) :: L) k0 = if c = k0 then some w else dictGet L k0 :=
      fun c w L => rfl
    rw [List.map_cons, hhead, hany]
    by_cases hak : a = k
    · rw [if_pos hak, hget]
      by_cases hkk0 : k = k0
      · rw [if_pos hkk0, if_pos hkk0]
        have : decide (a = k) = true := decide_eq_true hak
        rw [this, Bool.true_or, if_pos rfl]
      · rw [if_neg hkk0, if_neg hkk0, ih, if_neg hkk0, hget]
        have hak0 : ¬ (a = k0) := fun hh => hkk0 (hak ▸ hh)
        rw [if_neg hak0]
    · rw [if_neg hak, hget, hget]
      by_cases hak0 : a = k0
      · rw [if_pos hak0, if_pos hak0]
        have hkk0 : ¬ (k = k0) := fun hh => hak (hh.trans hak0.symm).symm
        rw [if_neg hkk0]
      · rw [if_neg hak0, if_neg hak0, ih]
        by_cases hkk0 : k = k0
        · rw [if_pos hkk0, if_pos hkk0]
          have hd : decide (a = k) = false := decide_eq_false hak
          rw [hd, Bool.false_or]
        · rw [if_neg hkk0, if_neg hkk0]

theorem dictGet_dictInsert (m : List (String × ToolDef)) (k : String) (v : ToolDef)
    (k0 : String) :
    dictGet (dictInsert m k v) k0 = if k = k0 then some v else dictGet m k0 := by
  unfold dictInsert
  split
  · next hany =>
      rw [dictGet_map_replace, hany]
      by_cases hkk0 : k = k0
      · rw [if_pos hkk0, if_pos hkk0, if_pos rfl]
      · rw [if_neg hkk0, if_neg hkk0]
  · next hany =>
      have hnone : dictGet m k = none := by
        cases hg : dictGet m k with
        | none => rfl
        | some w =>
          exfalso
          have hmem := dictGet_mem hg
          have : m.any (fun p => p.1 = k) = true :=
            List.any_eq_true.mpr ⟨(k, w), hmem, by simp⟩
          rw [this] at hany
          exact hany rfl
      rw [dictGet_append]
      by_cases hkk0 : k = k0
      · subst hkk0
        rw [hnone]
        simp [dictGet]
      · have : dictGet [(k, v)] k0 = none := by simp [dictGet, hkk0]
        rw [this, Option.or_none, if_neg hkk0]

theorem option_some_or {α : Type} (a : α) (o : Option α) : (some a).or o = some a := rfl

theorem getLast?_cons_or {α : Type} (a : α) (l : List α) :
    (a :: l).getLast? = l.getLast?.or (some a) := by
  cases l with
  | nil => rfl
  | cons b l' =>
    rw [List.getLast?_cons_cons]
    have hs : ((b :: l').getLast?).isSome := List.getLast?_isSome.mpr (by simp)
    rcases Option.isSome_iff_exists.mp hs with ⟨x, hx⟩
    rw [hx]
    rfl

theorem dictGet_foldl_last (cat : List ToolDef) :
    ∀ (m : List (String × ToolDef)) (k : String),
      dictGet (cat.foldl (fun m t => dictInsert m t.name t) m) k =
        ((cat.filter (fun t => t.name = k)).getLast?).or (dictGet m k) := by
  induction cat with
  | nil => intro m k; simp
  | cons t rest ih =>
    intro m k
    rw [List.foldl_cons, ih, dictGet_dictInsert]
    by_cases h : t.name = k
    · have hf : List.filter (fun t => decide (t.name = k)) (t :: rest)
          = t :: List.filter (fun t => decide (t.name = k)) rest := by
        simp [List.filter_cons, h]
      rw [hf, getLast?_cons_or, if_pos h, Option.or_assoc, option_some_or]
    · have hf : List.filter (fun t => decide (t.name = k)) (t :: rest)
          = List.filter (fun t => decide (t.name = k)) rest := by
        simp [List.filter_cons, h]
      rw [hf, if_neg h]

theorem dictGet_get_tools_by_name (cat : List ToolDef) (k : String) :
    dictGet (get_tools_by_name cat) k = (cat.filter (fun t => t.name = k)).getLast? := by
  unfold get_tools_by_name
  rw [dictGet_foldl_last]
  have : dictGet ([] : List (String × ToolDef)) k = none := rfl
  rw [this, Option.or_none]

theorem pySlice_nonneg {α : Type} (xs : List α) (a b : Int) (ha : 0 ≤ a) (hb : 0 ≤ b) :
    pySlice xs a b = (xs.drop a.toNat).take (b.toNat - a.toNat) := by
  unfold pySlice pyIdx
  rw [if_neg (by omega), if_neg (by omega)]
  by_cases h : a.toNat ≤ xs.length
  · have hmin : min a.toNat xs.length = a.toNat := by omega
    rw [hmin, List.drop_take, List.take_eq_take, List.length_drop]
    have := min_le_right b.toNat xs.length
    omega
  · have hdrop : xs.drop a.toNat = [] := List.drop_eq_nil_iff.mpr (by omega)
    rw [hdrop, List.take_nil]
    have hmin : min a.toNat xs.length = xs.length := by omega
    rw [hmin]
    apply List.drop_eq_nil_iff.mpr
    rw [List.length_take]
    omega

theorem pySplitChar_ne_nil (sep : Char) (l : List Char) : pySplitChar sep l ≠ [] := by
  induction l with
  | nil => simp [pySplitChar]
  | cons c cs ih =>
    simp only [pySplitChar]
    split
    · simp
    · split
      · simp
      · simp

theorem pySplitChar_headD (sep : Char) (l : List Char) :
    (pySplitChar sep l).headD [] = l.takeWhile (fun c => c ≠ sep) := by
  induction l with
  | nil => rfl
  | cons c cs ih =>
    by_cases h : c = sep
    · subst h
      simp [pySplitChar, List.takeWhile_cons]
    · cases hp : pySplitChar sep cs with
      | nil => exact absurd hp (pySplitChar_ne_nil sep cs)
      | cons p ps =>
        have hL : pySplitChar sep (c :: cs) = (c :: p) :: ps := by
          simp only [pySplitChar, if_neg h, hp]
        have hih : p = cs.takeWhile (fun c => c ≠ sep) := by
          rw [← ih, hp]
          rfl
        rw [hL]
        simp [List.takeWhile_cons, h, hih]

theorem deriveCategory_eq_spec (n : String) : deriveCategory n = specDeriveCategory n := by
  unfold deriveCategory specDeriveCategory
  by_cases h1 : n.data.contains '.' = true
  · rw [if_pos h1, if_pos h1]
    exact congrArg String.mk (pySplitChar_headD '.' n.data)
  · rw [if_neg h1, if_neg h1]
    by_cases h2 : n.data.contains '_' = true
    · rw [if_pos h2, if_pos h2]
      exact congrArg String.mk (pySplitChar_headD '_' n.data)
    · rw [if_neg h2, if_neg h2]

theorem mem_pySetFold (l : List String) :
    ∀ (acc : List String) (x : String),
      (x ∈ l.foldl (fun acc c => if c ∈ acc then acc else acc ++ [c]) acc) ↔
        (x ∈ acc ∨ x ∈ l) := by
  induction l with
  | nil =>
    intro acc x
    simp
  | cons c cs ih =>
    intro acc x
    rw [List.foldl_cons]
    by_cases h : c ∈ acc
    · rw [if_pos h, ih]
      constructor
      · rintro (h1 | h1)
        · exact Or.inl h1
        · exact Or.inr (List.mem_cons_of_mem _ h1)
      · rintro (h1 | h1)
        · exact Or.inl h1
        · rcases List.mem_cons.mp h1 with h2 | h2
          · exact Or.inl (h2 ▸ h)
          · exact Or.inr h2
    · rw [if_neg h, ih]
      constructor
      · rintro (h1 | h1)
        · rcases List.mem_append.mp h1 with h2 | h2
          · exact Or.inl h2
          · exact Or.inr (List.mem_cons.mpr (Or.inl (by simpa using h2)))
        · exact Or.inr (List.mem_cons_of_mem _ h1)
      · rintro (h1 | h1)
        · exact Or.inl (List.mem_append.mpr (Or.inl h1))
        · rcases List.mem_cons.mp h1 with h2 | h2
          · exact Or.inl (List.mem_append.mpr (Or.inr (by simp [h2])))
          · exact Or.inr h2

theorem nodup_pySetFold (l : List String) :
    ∀ acc : List String, acc.Nodup →
      (l.foldl (fun acc c => if c ∈ acc then acc else acc ++ [c]) acc).Nodup := by
  induction l with
  | nil =>
    intro acc h
    exact h
  | cons c cs ih =>
    intro acc h
    rw [List.foldl_cons]
    by_cases hc : c ∈ acc
    · rw [if_pos hc]
      exact ih acc h
    · rw [if_neg hc]
      apply ih
      simp [List.nodup_append, h, hc]

theorem mem_pySetOfList (l : List String) (x : String) :
    x ∈ pySetOfList l ↔ x ∈ l := by
  unfold pySetOfList
  rw [mem_pySetFold]
  simp

theorem nodup_pySetOfList (l : List String) : (pySetOfList l).Nodup :=
  nodup_pySetFold l [] List.nodup_nil

theorem sorted_get_tool_categories (tools : List ToolDef) :
    List.Sorted (fun a b : String => a ≤ b) (get_tool_categories tools) := by
  haveI : IsTotal String (fun a b : String => a ≤ b) := ⟨fun a b => le_total a b⟩
  haveI : IsTrans String (fun a b : String => a ≤ b) := ⟨fun _ _ _ h1 h2 => le_trans h1 h2⟩
  exact List.sorted_insertionSort _ _

theorem nodup_get_tool_categories (tools : List ToolDef) :
    (get_tool_categories tools).Nodup :=
  ((List.perm_insertionSort _ _).symm).nodup
    (nodup_pySetOfList (tools.map (fun t => deriveCategory t.name)))

theorem mem_get_tool_categories (tools : List ToolDef) (c : String) :
    c ∈ get_tool_categories tools ↔ ∃ t ∈ tools, deriveCategory t.name = c := by
  unfold get_tool_categories
  rw [List.mem_insertionSort, mem_pySetOfList, List.mem_map]

theorem length_load_entries (l : List RawEntry) :
    (l.filterMap
        (fun e => e.name.map (fun n => (⟨n, e.description, e.inputSchema⟩ : ToolDef)))).length
      = (l.filter (fun e => e.name.isSome)).length := by
  induction l with
  | nil => rfl
  | cons e rest ih =>
    cases he : e.name <;> simp [List.filterMap_cons, List.filter_cons, he, ih]

theorem no_match_resolution {catalog : List ToolDef} {n : String}
    (h : ∀ t ∈ catalog, t.name ≠ n ∧ pyLower t.name ≠ pyLower n) :
    dictGet (get_tools_by_name catalog) n = none ∧
    dictFindLower (get_tools_by_name catalog) (pyLower n) = none := by
  constructor
  · cases hg : dictGet (get_tools_by_name catalog) n with
    | none => rfl
    | some v =>
      exfalso
      have hmem := mem_get_tools_by_name (dictGet_mem hg)
      exact (h v hmem.1).1 hmem.2
  · cases hf : dictFindLower (get_tools_by_name catalog) (pyLower n) with
    | none => rfl
    | some p =>
      exfalso
      rcases dictFindLower_mem hf with ⟨hp, hlow⟩
      have hmem := mem_get_tools_by_name hp
      exact (h p.2 hmem.1).2 (by rw [hmem.2]; exact hlow)

/-- Claim C6: category derivation is a pure total function on tool names
following the three-rule precedence (substring before the first `.`, else
before the first `_`, else the literal `general`), and the categories
listing is the deduplicated set of all derived values sorted ascending. -/
theorem category_derivation_spec (tools : List ToolDef) :
    (∀ n : String, deriveCategory n = specDeriveCategory n) ∧
    List.Sorted (fun a b : String => a ≤ b) (get_tool_categories tools) ∧
    (get_tool_categories tools).Nodup ∧
    (∀ c : String,
      c ∈ get_tool_categories tools ↔ ∃ t ∈ tools, deriveCategory t.name = c) :=
  ⟨fun n => deriveCategory_eq_spec n, sorted_get_tool_categories tools,
   nodup_get_tool_categories tools, fun c => mem_get_tool_categories tools c⟩

/-- Claim C9: on duplicate names the name-indexed dict resolves to the
last-loaded definition, while the loaded catalog sequence keeps every named
entry in load order (its length is the number of named raw entries), so the
listing's `total` counts both. -/
theorem duplicate_names_last_one_wins (files : List (Option (List RawEntry))) :
    (∀ k : String,
      dictGet (get_tools_by_name (load_tools files)) k
        = ((load_tools files).filter (fun t => t.name = k)).getLast?) ∧
    (∀ (k : String) (t : ToolDef),
      ((load_tools files).filter (fun t => t.name = k)).getLast? = some t →
        (get_tool_schema (load_tools files) k).inputSchema
          = some (t.inputSchema.getD (Json.obj []))) ∧
    ((load_tools files).length
      = (((files.filterMap id).flatten).filter (fun e => e.name.isSome)).length) ∧
    ((list_available_tools (load_tools files) none none 50 0).total
      = (load_tools files).length) := by
  refine ⟨fun k => dictGet_get_tools_by_name _ k, ?_, ?_, rfl⟩
  · intro k t h
    have hg : dictGet (get_tools_by_name (load_tools files)) k = some t := by
      rw [dictGet_get_tools_by_name]
      exact h
    simp only [get_tool_schema, hg]
  · unfold load_tools
    exact length_load_entries _

/-- Claim C9 witness: two files both define `x.a`; the schema lookup returns
the second file's schema while the catalog keeps both entries. -/
theorem duplicate_names_last_one_wins_witness :
    (get_tool_schema (load_tools dupFiles) "x.a").inputSchema
      = some (Json.obj [("type", Json.str "object")]) :=
  (duplicate_names_last_one_wins dupFiles).2.1 "x.a"
    ⟨"x.a", some "second", some (Json.obj [("type", Json.str "object")])⟩ rfl

/-- Claim C3: a tool name with no exact and no case-insensitive match in the
catalog makes `execute_ue_tool` return the structured not-found result and
send nothing to the backend. -/
theorem execute_ue_tool_unknown_tool (catalog : List ToolDef)
    (parse : String → Except String Json) (backend : Json → BackendResp)
    (n : String) (args : Option String)
    (h : ∀ t ∈ catalog, t.name ≠ n ∧ pyLower t.name ≠ pyLower n) :
    execute_ue_tool catalog parse backend n args =
      { result := Json.obj
          [("success", Json.bool false),
           ("error", Json.str ("Tool '" ++ n ++ "' not found")),
           ("suggestion", Json.str "Use list_available_tools to find available tools")]
        request := none } := by
  rcases no_match_resolution h with ⟨hget, hfind⟩
  have hres : resolveName (get_tools_by_name catalog) n = none := by
    unfold resolveName
    rw [hget, hfind]
    rfl
  simp only [execute_ue_tool, hres]

/-- Claim C3 witness: the spec's scenario, with a backend double that fails
every call; the not-found result comes back without the backend mattering. -/
theorem execute_ue_tool_unknown_tool_witness :
    execute_ue_tool exCat parseFail noBackend "missing.tool" (some "{}") =
      { result := Json.obj
          [("success", Json.bool false),
           ("error", Json.str "Tool 'missing.tool' not found"),
           ("suggestion", Json.str "Use list_available_tools to find available tools")]
        request := none } :=
  execute_ue_tool_unknown_tool exCat parseFail noBackend "missing.tool" (some "{}")
    (by decide)

/-- Claim C8: a name absent from the catalog (no exact and no
case-insensitive match) gives `found := false`, structurally, with no
exception (the embedding is a total function). -/
theorem get_tool_schema_absent (catalog : List ToolDef) (n : String)
    (h : ∀ t ∈ catalog, t.name ≠ n ∧ pyLower t.name ≠ pyLower n) :
    (get_tool_schema catalog n).found = false ∧
    get_tool_schema catalog n =
      { found := false, name := none, description := none, inputSchema := none,
        error := some ("Tool '" ++ n ++ "' not found"),
        suggestion := some "Use list_available_tools to find available tools" } := by
  rcases no_match_resolution h with ⟨hget, hfind⟩
  have heq : get_tool_schema catalog n =
      { found := false, name := none, description := none, inputSchema := none,
        error := some ("Tool '" ++ n ++ "' not found"),
        suggestion := some "Use list_available_tools to find available tools" } := by
    simp only [get_tool_schema, hget, hfind, Option.map_none']
  exact ⟨by rw [heq], heq⟩

/-- Claim C8 witness: a concrete absent name. -/
theorem get_tool_schema_absent_witness :
    (get_tool_schema exCat "no.such_tool").found = false ∧
    get_tool_schema exCat "no.such_tool" =
      { found := false, name := none, description := none, inputSchema := none,
        error := some "Tool 'no.such_tool' not found",
        suggestion := some "Use list_available_tools to find available tools" } :=
  get_tool_schema_absent exCat "no.such_tool" (by decide)

/-- Claim C7: a name present in the catalog in any letter case yields
`found := true` and an `inputSchema` identical to the matched source
definition's (with the empty object standing in when the source entry has
none, as the code's `.get` default). -/
theorem get_tool_schema_present (catalog : List ToolDef) (n : String)
    (h : ∃ t ∈ catalog, pyLower t.name = pyLower n) :
    (get_tool_schema catalog n).found = true ∧
    ∃ t ∈ catalog, pyLower t.name = pyLower n ∧
      get_tool_schema catalog n =
        { found := true, name := some t.name,
          description := some (t.description.getD ""),
          inputSchema := some (t.inputSchema.getD (Json.obj [])),
          error := none, suggestion := none } := by
  cases hg : dictGet (get_tools_by_name catalog) n with
  | some t =>
    have hmem := mem_get_tools_by_name (dictGet_mem hg)
    have heq : get_tool_schema catalog n =
        { found := true, name := some t.name,
          description := some (t.description.getD ""),
          inputSchema := some (t.inputSchema.getD (Json.obj [])),
          error := none, suggestion := none } := by
      simp only [get_tool_schema, hg]
    exact ⟨by rw [heq], t, hmem.1, by rw [hmem.2], heq⟩
  | none =>
    rcases h with ⟨t0, ht0, hlow⟩
    rcases key_get_tools_by_name ht0 with ⟨w, hw⟩
    have hsome : (dictFindLower (get_tools_by_name catalog) (pyLower n)).isSome :=
      dictFindLower_isSome hw hlow
    rcases Option.isSome_iff_exists.mp hsome with ⟨p, hp⟩
    rcases dictFindLower_mem hp with ⟨hpm, hplow⟩
    have hmem := mem_get_tools_by_name hpm
    have heq : get_tool_schema catalog n =
        { found := true, name := some p.2.name,
          description := some (p.2.description.getD ""),
          inputSchema := some (p.2.inputSchema.getD (Json.obj [])),
          error := none, suggestion := none } := by
      simp only [get_tool_schema, hg, hp, Option.map_some']
    refine ⟨by rw [heq], p.2, hmem.1, ?_, heq⟩
    rw [hmem.2]
    exact hplow

/-- Claim C7 witness: an upper-cased variant of a catalog name is matched by
the case-insensitive fallback. -/
theorem get_tool_schema_present_witness :
    (get_tool_schema exCat "MATERIAL.SET_PARAM").found = true ∧
    ∃ t ∈ exCat, pyLower t.name = pyLower "MATERIAL.SET_PARAM" ∧
      get_tool_schema exCat "MATERIAL.SET_PARAM" =
        { found := true, name := some t.name,
          description := some (t.description.getD ""),
          inputSchema := some (t.inputSchema.getD (Json.obj [])),
          error := none, suggestion := none } :=
  get_tool_schema_present exCat "MATERIAL.SET_PARAM" (by decide)

/-- Claim C5: for a resolved tool name, a present non-empty argument string
that fails to parse yields the structured parse failure echoing the raw
string, with no outbound call; an absent or empty argument string forwards
the empty object as argument payload. -/
theorem execute_ue_tool_arguments (catalog : List ToolDef)
    (parse : String → Except String Json) (backend : Json → BackendResp)
    (n rname : String)
    (hres : resolveName (get_tools_by_name catalog) n = some rname) :
    (∀ s e, s ≠ "" → parse s = Except.error e →
      execute_ue_tool catalog parse backend n (some s) =
        { result := Json.obj
            [("success", Json.bool false),
             ("error", Json.str ("Invalid JSON in arguments: " ++ e)),
             ("arguments_received", Json.str s)]
          request := none }) ∧
    (∀ args : Option String, (args = none ∨ args = some "") →
      execute_ue_tool catalog parse backend n args =
        { result := handleResp rname (backend (mcpRequest rname (Json.obj [])))
          request := some (mcpRequest rname (Json.obj [])) }) := by
  constructor
  · intro s e hs hp
    have hargs : parseArgs parse (some s) = Except.error (e, s) := by
      simp only [parseArgs, if_neg hs, hp]
    simp only [execute_ue_tool, hres, hargs]
  · intro args hargs0
    have hargs : parseArgs parse args = Except.ok (Json.obj []) := by
      rcases hargs0 with h | h <;> subst h <;> simp [parseArgs]
    simp only [execute_ue_tool, hres, hargs]

/-- Claim C5 witness: the spec's malformed-JSON scenario, plus the
absent-arguments case forwarding the empty object. -/
theorem execute_ue_tool_arguments_witness :
    execute_ue_tool exCat parseFail noBackend "material.set_param"
        (some "\x7bnot valid json") =
      { result := Json.obj
          [("success", Json.bool false),
           ("error", Json.str
              ("Invalid JSON in arguments: " ++ "Expecting value: line 1 column 2 (char 1)")),
           ("arguments_received", Json.str "\x7bnot valid json")]
        request := none } ∧
    execute_ue_tool exCat parseFail noBackend "material.set_param" none =
      { result := handleResp "material.set_param"
          (noBackend (mcpRequest "material.set_param" (Json.obj [])))
        request := some (mcpRequest "material.set_param" (Json.obj [])) } :=
  ⟨(execute_ue_tool_arguments exCat parseFail noBackend "material.set_param"
        "material.set_param" rfl).1 "\x7bnot valid json"
      "Expecting value: line 1 column 2 (char 1)" (by decide) rfl,
   (execute_ue_tool_arguments exCat parseFail noBackend "material.set_param"
        "material.set_param" rfl).2 none (Or.inl rfl)⟩

/-- Claim C4: on an HTTP 200 backend reply, a body with an `error` object
wins (even when `result` is also present) and is surfaced as message plus
code; otherwise a `result` field is surfaced as the result; otherwise the
whole body is the result. -/
theorem execute_ue_tool_backend_reply (catalog : List ToolDef)
    (parse : String → Except String Json) (backend : Json → BackendResp)
    (n rname : String) (args : Option String) (j : Json)
    (body : List (String × Json)) (text : String)
    (hres : resolveName (get_tools_by_name catalog) n = some rname)
    (hargs : parseArgs parse args = Except.ok j)
    (hback : backend (mcpRequest rname j) = BackendResp.ok 200 body text) :
    (execute_ue_tool catalog parse backend n args).request
        = some (mcpRequest rname j) ∧
    (∀ ef, lookupFirst body "error" = some (Json.obj ef) →
      (execute_ue_tool catalog parse backend n args).result =
        Json.obj
          [("success", Json.bool false),
           ("error", (lookupFirst ef "message").getD (Json.str "Unknown error")),
           ("code", (lookupFirst ef "code").getD Json.null)]) ∧
    (lookupFirst body "error" = none → ∀ rv, lookupFirst body "result" = some rv →
      (execute_ue_tool catalog parse backend n args).result =
        Json.obj
          [("success", Json.bool true), ("tool", Json.str rname), ("result", rv)]) ∧
    (lookupFirst body "error" = none → lookupFirst body "result" = none →
      (execute_ue_tool catalog parse backend n args).result =
        Json.obj
          [("success", Json.bool true), ("tool", Json.str rname),
           ("result", Json.obj body)]) := by
  have hexec : execute_ue_tool catalog parse backend n args =
      { result := handleResp rname (backend (mcpRequest rname j))
        request := some (mcpRequest rname j) } := by
    simp only [execute_ue_tool, hres, hargs]
  rw [hexec, hback]
  refine ⟨rfl, ?_, ?_, ?_⟩
  · intro ef hef
    show handleResp rname (BackendResp.ok 200 body text) = _
    simp only [handleResp, hef]
    exact if_pos trivial
  · intro herr rv hrv
    show handleResp rname (BackendResp.ok 200 body text) = _
    simp only [handleResp, herr, hrv]
    exact if_pos trivial
  · intro herr hrv
    show handleResp rname (BackendResp.ok 200 body text) = _
    simp only [handleResp, herr, hrv]
    exact if_pos trivial

/-- Claim C4 witness: a 200 reply carrying both an error object and a
`result` field surfaces the error (precedence check). -/
theorem execute_ue_tool_backend_reply_witness :
    (execute_ue_tool exCat parseFail errorBackend "material.set_param" none).result =
      Json.obj
        [("success", Json.bool false), ("error", Json.str "bad state"),
         ("code", Json.num (-32000))] :=
  (execute_ue_tool_backend_reply exCat parseFail errorBackend "material.set_param"
      "material.set_param" none (Json.obj [])
      [("error", Json.obj [("message", Json.str "bad state"), ("code", Json.num (-32000))]),
       ("result", Json.str "ignored")] "" rfl rfl rfl).2.1
    [("message", Json.str "bad state"), ("code", Json.num (-32000))] rfl

/-- Claim C2 (amended to non-negative limits; a negative limit follows
Python negative-index slice semantics instead, see the counterexample):
the listing is the plain slice `[offset, offset + min(limit, 200))` of the
filtered sequence in catalog order, `total` counts the filtered sequence,
`returned` is the slice length and `has_more` is
`offset + min(limit, 200) < total`; with defaults and no filters,
`returned = min(total, 50)` and `has_more = (50 < total)`. -/
theorem list_available_tools_pagination (tools : List ToolDef)
    (category search : Option String) (limit offset : Int)
    (hl : 0 ≤ limit) (ho : 0 ≤ offset) :
    (list_available_tools tools category search limit offset).tools
      = (((listFiltered tools category search).drop offset.toNat).take
            (min limit 200).toNat).map
          (fun t => (t.name, truncateDesc (t.description.getD ""))) ∧
    (list_available_tools tools category search limit offset).total
      = (listFiltered tools category search).length ∧
    (list_available_tools tools category search limit offset).returned
      = (((listFiltered tools category search).drop offset.toNat).take
            (min limit 200).toNat).length ∧
    ((list_available_tools tools category search limit offset).has_more = true ↔
      offset + min limit 200 < ((listFiltered tools category search).length : Int)) ∧
    (limit = 50 → offset = 0 → category = none → search = none →
      (list_available_tools tools category search limit offset).returned
          = min tools.length 50 ∧
      ((list_available_tools tools category search limit offset).has_more = true ↔
        50 < (tools.length : Int))) := by
  have hslice : pySlice (listFiltered tools category search) offset
        (offset + min limit 200)
      = ((listFiltered tools category search).drop offset.toNat).take
          (min limit 200).toNat := by
    rw [pySlice_nonneg _ _ _ ho (by omega)]
    congr 1
    omega
  refine ⟨?_, rfl, ?_, ?_, ?_⟩
  · show (pySlice (listFiltered tools category search) offset
        (offset + min limit 200)).map
          (fun t => (t.name, truncateDesc (t.description.getD ""))) = _
    rw [hslice]
  · show ((pySlice (listFiltered tools category search) offset
        (offset + min limit 200)).map
          (fun t => (t.name, truncateDesc (t.description.getD "")))).length = _
    rw [hslice, List.length_map]
  · show decide (offset + min limit 200
        < ((listFiltered tools category search).length : Int)) = true ↔ _
    rw [decide_eq_true_iff]
  · intro h50 h0 hcat hsearch
    subst h50
    subst h0
    subst hcat
    subst hsearch
    have hfil : listFiltered tools none none = tools := rfl
    constructor
    · show ((pySlice (listFiltered tools none none) 0 (0 + min (50 : Int) 200)).map
          (fun t => (t.name, truncateDesc (t.description.getD "")))).length = _
      rw [hslice, List.length_map, List.length_take, List.length_drop, hfil]
      omega
    · show decide ((0 : Int) + min (50 : Int) 200
          < ((listFiltered tools none none).length : Int)) = true ↔ _
      rw [decide_eq_true_iff, hfil]
      omega

/-- Claim C2 witness: defaults over the two-tool catalog. -/
theorem list_available_tools_pagination_witness :
    (list_available_tools exCat none none 50 0).returned
      = (((listFiltered exCat none none).drop (0 : Int).toNat).take
            (min (50 : Int) 200).toNat).length ∧
    (list_available_tools exCat none none 50 0).returned = min exCat.length 50 :=
  ⟨(list_available_tools_pagination exCat none none 50 0 (by decide) (by decide)).2.2.1,
   ((list_available_tools_pagination exCat none none 50 0 (by decide)
        (by decide)).2.2.2.2 rfl rfl rfl rfl).1⟩

/-- Claim C2 counterexample: with `limit = -1` the code returns the Python
slice `filtered[0:-1]` (all but the last element, here 1 tool), not the
empty slice `[0, 0 + min(-1, 200))` the claim's formula describes for a
negative limit. -/
theorem list_pagination_negative_limit_counterexample :
    ¬ ((list_available_tools exCat none none (-1) 0).returned
        = (((listFiltered exCat none none).drop (0 : Int).toNat).take
            (min (-1 : Int) 200).toNat).length) := by
  decide

/-- Claim C1 counterexample: a tool whose lowercase name equals the
lowercase category passes the §4.1 listing filter (equality disjunct) but
not the /tools.json filter, which has only the two prefix disjuncts. -/
theorem tools_json_category_filter_not_equiv :
    endpointCategoryMatch "actor" "actor" = false ∧
    categoryMatch "actor" "actor" = true ∧
    tools_json_endpoint [⟨"actor", none, none⟩] false false (some "actor") none 0
      = ToolsJsonResp.full [] := by
  refine ⟨by decide, by decide, rfl⟩

/-- Claim C1 (amended): the /tools.json category filter keeps exactly the
tools whose lowercase name starts with `lowercase(category) + "."` or with
`lowercase(category) + "_"`; the exact-equality disjunct of the §4.1 filter
is absent from the endpoint. -/
theorem tools_json_category_filter_prefix_only (tools : List ToolDef)
    (c : String) (t : ToolDef) (hc : c ≠ "") :
    (t ∈ endpointFiltered tools (some c) ↔
      t ∈ tools ∧
        (pyStartsWith (pyLower t.name) (pyLower c ++ ".") = true ∨
         pyStartsWith (pyLower t.name) (pyLower c ++ "_") = true)) ∧
    tools_json_endpoint tools false false (some c) none 0
      = ToolsJsonResp.full (endpointFiltered tools (some c)) := by
  constructor
  · simp [endpointFiltered, hc, List.mem_filter, endpointCategoryMatch]
  · rfl

/-- Claim C1 witness: a dot-prefixed name passes the amended filter. -/
theorem tools_json_category_filter_prefix_only_witness :
    ((⟨"actor.spawn", none, none⟩ : ToolDef) ∈
        endpointFiltered [⟨"actor.spawn", none, none⟩] (some "actor") ↔
      (⟨"actor.spawn", none, none⟩ : ToolDef) ∈
          ([⟨"actor.spawn", none, none⟩] : List ToolDef) ∧
        (pyStartsWith (pyLower "actor.spawn") (pyLower "actor" ++ ".") = true ∨
         pyStartsWith (pyLower "actor.spawn") (pyLower "actor" ++ "_") = true)) ∧
    tools_json_endpoint [⟨"actor.spawn", none, none⟩] false false (some "actor") none 0
      = ToolsJsonResp.full (endpointFiltered [⟨"actor.spawn", none, none⟩] (some "actor")) :=
  tools_json_category_filter_prefix_only [⟨"actor.spawn", none, none⟩] "actor"
    ⟨"actor.spawn", none, none⟩ (by decide)

/-- Claim C10: with no `limit` query parameter the /tools.json endpoint
returns every category-filtered tool as a full definition (no default of 50
and no 200 cap), and with only a non-negative offset it returns the suffix
of the filtered sequence from that offset. -/
theorem tools_json_no_limit (tools : List ToolDef) (category : Option String)
    (offset : Int) (ho : 0 ≤ offset) :
    tools_json_endpoint tools false false category none offset
      = ToolsJsonResp.full ((endpointFiltered tools category).drop offset.toNat) ∧
    tools_json_endpoint tools false false category none 0
      = ToolsJsonResp.full (endpointFiltered tools category) := by
  constructor
  · simp only [tools_json_endpoint]
    by_cases h : offset > 0
    · rw [if_pos h]
      rfl
    · rw [if_neg h]
      have h0 : offset.toNat = 0 := by omega
      rw [h0, List.drop_zero]
      rfl
  · rfl

/-- Claim C10 witness: offset 1 over the two-tool catalog, and the
no-parameter call. -/
theorem tools_json_no_limit_witness :
    tools_json_endpoint exCat false false none none 1
      = ToolsJsonResp.full ((endpointFiltered exCat none).drop (1 : Int).toNat) ∧
    tools_json_endpoint exCat false false none none 0
      = ToolsJsonResp.full (endpointFiltered exCat none) :=
  tools_json_no_limit exCat none 1 (by decide)

end HopStack
